import Mathlib

/-!
Verification of the ray-tracer core (`src/math.rs`, `src/hittable.rs`,
`src/material.rs`, `src/camera.rs`) against its natural-language
specification.  The embedding replaces IEEE `f64` by exact rationals; where
the source computes a square root, the value is passed explicitly together
with a proposition pinning it down, so every definition stays executable.
-/

/-- Embeds `cgmath::Vector3<f64>` / `Point3<f64>` (both are plain 3-vectors),
with `f64` replaced by `ℚ`. -/
structure Vec3 where
  x : ℚ
  y : ℚ
  z : ℚ
deriving DecidableEq

/-- Componentwise addition (cgmath `Add`). -/
def Vec3.add (a b : Vec3) : Vec3 := ⟨a.x + b.x, a.y + b.y, a.z + b.z⟩

instance : Add Vec3 := ⟨Vec3.add⟩

/-- Componentwise subtraction (cgmath `Sub`). -/
def Vec3.sub (a b : Vec3) : Vec3 := ⟨a.x - b.x, a.y - b.y, a.z - b.z⟩

instance : Sub Vec3 := ⟨Vec3.sub⟩

/-- Componentwise negation (cgmath `Neg`). -/
def Vec3.neg (a : Vec3) : Vec3 := ⟨-a.x, -a.y, -a.z⟩

instance : Neg Vec3 := ⟨Vec3.neg⟩

/-- Scalar multiplication (cgmath `Mul<f64>`). -/
def Vec3.smul (q : ℚ) (a : Vec3) : Vec3 := ⟨q * a.x, q * a.y, q * a.z⟩

instance : SMul ℚ Vec3 := ⟨Vec3.smul⟩

/-- Componentwise division by a scalar (cgmath `Div<f64>`). -/
def Vec3.divQ (a : Vec3) (q : ℚ) : Vec3 := ⟨a.x / q, a.y / q, a.z / q⟩

/-- Dot product (cgmath `InnerSpace::dot`). -/
def Vec3.dot (a b : Vec3) : ℚ := a.x * b.x + a.y * b.y + a.z * b.z

/-- Squared magnitude (cgmath `InnerSpace::magnitude2`). -/
def Vec3.magnitude2 (a : Vec3) : ℚ := a.dot a

/-- Componentwise product (cgmath `ElementWise::mul_element_wise`). -/
def Vec3.mulE (a b : Vec3) : Vec3 := ⟨a.x * b.x, a.y * b.y, a.z * b.z⟩

/-- Linear interpolation (cgmath `VectorSpace::lerp`):
`lerp a b s = a + s * (b - a)`. -/
def Vec3.lerp (a b : Vec3) (s : ℚ) : Vec3 := a + s • (b - a)

/-- Every channel lies in the unit interval `[0, 1]`. -/
def Vec3.inUnit (v : Vec3) : Prop :=
  0 ≤ v.x ∧ v.x ≤ 1 ∧ 0 ≤ v.y ∧ v.y ≤ 1 ∧ 0 ≤ v.z ∧ v.z ≤ 1

instance (v : Vec3) : Decidable v.inUnit := by
  unfold Vec3.inUnit; infer_instance

/-- Embeds `VectorExt::reflect` (math.rs 84-86):
`self - 2 * self.dot(normal) * normal`. -/
def Vec3.reflect (v n : Vec3) : Vec3 := v - (2 * v.dot n) • n

/-- Embeds `VectorExt::refract` (math.rs 88-94).  The source computes
`r_par = -(1 - r_perp.magnitude2()).abs().sqrt() * normal`; the square root
is passed in as `sq`, constrained by `RefractSqrtSpec` in the theorems. -/
def Vec3.refractW (v n : Vec3) (eta sq : ℚ) : Vec3 :=
  let cosT := min (v.dot (-n)) 1
  eta • (v + cosT • n) + (-sq) • n

/-- Characterizes the square root the source takes inside `refract`:
`sq = sqrt(|1 - |r_perp|^2|)` where `r_perp = eta * (v + cos_theta * n)`. -/
def RefractSqrtSpec (v n : Vec3) (eta sq : ℚ) : Prop :=
  0 ≤ sq ∧ sq ^ 2 = |1 - (eta • (v + (min (v.dot (-n)) 1) • n)).magnitude2|

/-- Embeds `VectorExt::average` (math.rs 96-106).  The source counts elements
with `n` starting at 1 and incremented once per `reduce` step (so `n` ends as
the list length), sums with `reduce`, and divides; on an empty iterator it
panics with "The vector iterator cannot be empty", modelled as `none`. -/
def Vec3.average (l : List Vec3) : Option Vec3 :=
  match l with
  | [] => none
  | v :: vs => some ((vs.foldl (fun a b => a + b) v).divQ ((vs.length + 1 : ℕ) : ℚ))

/-- Embeds `Ray` (math.rs 134-138). -/
structure Ray where
  origin : Vec3
  direction : Vec3
deriving DecidableEq

/-- Embeds `Ray::at` (math.rs 140-142): `origin + t * direction`. -/
def Ray.at (r : Ray) (t : ℚ) : Vec3 := r.origin + t • r.direction

/-- Embeds the `ParabolaRoots` enum (math.rs 145-151). -/
inductive ParabolaRoots where
  | noRoots : ParabolaRoots
  | one : ℚ → ParabolaRoots
  | two : ℚ → ℚ → ParabolaRoots
deriving DecidableEq

/-- Embeds `Parabola` (math.rs 153-158): the quadratic `a t^2 + b t + c`. -/
structure Parabola where
  a : ℚ
  b : ℚ
  c : ℚ
deriving DecidableEq

/-- The discriminant `b^2 - 4 a c` computed by `roots::find_roots_quadratic`. -/
def Parabola.discrim (p : Parabola) : ℚ := p.b ^ 2 - 4 * p.a * p.c

/-- `t` is a real root of the quadratic. -/
def Parabola.IsRoot (p : Parabola) (t : ℚ) : Prop :=
  p.a * t ^ 2 + p.b * t + p.c = 0

/-- Characterizes `Parabola::roots` (math.rs 160-172), which wraps
`roots::find_roots_quadratic` and then sorts the two-root case ascending by
value via `std::cmp::minmax_by` with `partial_cmp`.  `find_roots_quadratic`
degrades to the linear solver when `a = 0` (no root when `b = 0, c ≠ 0`; the
convention root `0` when `a = b = c = 0`), returns no roots for negative
discriminant, one root for zero discriminant and two distinct roots for
positive discriminant.  The roots involve a square root of the discriminant,
so the result is characterized relationally rather than computed. -/
def ParabolaRootsSpec (p : Parabola) : ParabolaRoots → Prop
  | .noRoots => (p.a = 0 ∧ p.b = 0 ∧ p.c ≠ 0) ∨ (p.a ≠ 0 ∧ p.discrim < 0)
  | .one r =>
      (p.a = 0 ∧ p.b ≠ 0 ∧ p.IsRoot r) ∨
      (p.a = 0 ∧ p.b = 0 ∧ p.c = 0 ∧ r = 0) ∨
      (p.a ≠ 0 ∧ p.discrim = 0 ∧ p.IsRoot r)
  | .two r1 r2 =>
      p.a ≠ 0 ∧ 0 < p.discrim ∧ r1 < r2 ∧ p.IsRoot r1 ∧ p.IsRoot r2

instance (p : Parabola) (r : ParabolaRoots) : Decidable (ParabolaRootsSpec p r) := by
  cases r <;> (simp only [ParabolaRootsSpec, Parabola.IsRoot]; infer_instance)

/-- Embeds the match in `Sphere::hit` (hittable.rs 77-81) that turns the root
enum into the candidate list examined in order: `None -> None`,
`One(r) -> Some(vec![r])`, `Two(r1, r2) -> Some(vec![r1, r2])`. -/
def ParabolaRoots.toList : ParabolaRoots → Option (List ℚ)
  | .noRoots => none
  | .one r => some [r]
  | .two r1 r2 => some [r1, r2]

/-- Modelled from the spec: the claim's candidate order.  Identical to
`ParabolaRoots.toList` except that the two-root case is listed in ascending
order of absolute value ("consider each in ascending absolute order"),
for comparison with the source's ascending-by-value order. -/
def ParabolaRoots.toListAbs : ParabolaRoots → Option (List ℚ)
  | .noRoots => none
  | .one r => some [r]
  | .two r1 r2 => if |r1| ≤ |r2| then some [r1, r2] else some [r2, r1]

/-- Embeds `HitRecord` (hittable.rs 9-18), generic over the material type
(the source stores `&dyn Material`). -/
structure HitRecord (M : Type) where
  point : Vec3
  normal : Vec3
  t : ℚ
  frontFace : Bool
  material : M
deriving DecidableEq

/-- Embeds `HitRecord::new` (hittable.rs 20-34): `front_face` is the sign test
`ray.direction.dot(outward_normal) < 0`, and the stored normal is the outward
normal, negated when `front_face` is false. -/
def HitRecord.new (material : M) (r : Ray) (t : ℚ) (outwardNormal : Vec3) :
    HitRecord M :=
  let frontFace : Bool := decide (r.direction.dot outwardNormal < 0)
  { point := r.at t
    normal := if frontFace then outwardNormal else -outwardNormal
    t := t
    frontFace := frontFace
    material := material }

/-- First candidate parameter lying in the inclusive range `[lo, hi]`; embeds
the selection loop of `Sphere::hit` (hittable.rs 83-92): `for t in rs { if
t_range.contains(&t) { return ... } }`. -/
def objHit (cands : List ℚ) (lo hi : ℚ) : Option ℚ :=
  cands.find? (fun t => decide (lo ≤ t) && decide (t ≤ hi))

/-- Embeds `Sphere` (hittable.rs 61-66), generic over the material type. -/
structure Sphere (M : Type) where
  center : Vec3
  radius : ℚ
  material : M
deriving DecidableEq

/-- The quadratic built by `Sphere::hit` (hittable.rs 69-75):
`a = |dir|^2`, `b = 2 * oc.dot(dir)`, `c = |oc|^2 - radius^2` with
`oc = origin - center`. -/
def Sphere.parabola (s : Sphere M) (r : Ray) : Parabola :=
  let oc := r.origin - s.center
  ⟨r.direction.magnitude2, 2 * oc.dot r.direction, oc.magnitude2 - s.radius ^ 2⟩

/-- Embeds `Sphere::hit` (hittable.rs 67-96) given the root enum produced for
`Sphere.parabola s r` (passed explicitly because the roots involve a square
root; theorems constrain it by `ParabolaRootsSpec`).  The first root in the
inclusive `[lo, hi]` range yields
`HitRecord::new(material, ray, t, (ray.at(t) - center) / radius)`. -/
def Sphere.hitR (s : Sphere M) (r : Ray) (lo hi : ℚ) (roots : ParabolaRoots) :
    Option (HitRecord M) :=
  roots.toList.bind fun rs =>
    match objHit rs lo hi with
    | some t => some (HitRecord.new s.material r t ((r.at t - s.center).divQ s.radius))
    | none => none

/-- Modelled from the spec: the same hit computation but with the two-root
candidate list ordered by ascending absolute value, as the claim's root
policy states.  Used only for comparison against `Sphere.hitR`. -/
def Sphere.hitAbsR (s : Sphere M) (r : Ray) (lo hi : ℚ) (roots : ParabolaRoots) :
    Option (HitRecord M) :=
  roots.toListAbs.bind fun rs =>
    match objHit rs lo hi with
    | some t => some (HitRecord.new s.material r t ((r.at t - s.center).divQ s.radius))
    | none => none

/-- Embeds Rust `Option::or`: keep `a` when it is `some`, else `b`. -/
def optOr (a b : Option ℚ) : Option ℚ :=
  match a with
  | some x => some x
  | none => b

/-- Embeds `HittableList::hit` (hittable.rs 45-59) at the level of hit
parameters.  Each member object is abstracted by its list of candidate
intersection parameters along the fixed ray (for a `Sphere`, its real roots in
ascending order) and its `hit` is `objHit`, the first-candidate-in-range
policy the source implements.  The fold starts from `None` and queries each
object on `[*t_range.start(), current.map(|hr| hr.t).unwrap_or(*t_range.end())]`,
then keeps `next.or(current)`. -/
def listHit (objs : List (List ℚ)) (lo hi : ℚ) : Option ℚ :=
  objs.foldl
    (fun current next => optOr (objHit next lo (current.getD hi)) current)
    none

/-- The nearest hit specification: the minimum over all member objects' hits
inside the full `[lo, hi]` range. -/
def nearestHit (objs : List (List ℚ)) (lo hi : ℚ) : Option ℚ :=
  (objs.filterMap (fun o => objHit o lo hi)).min?

/-- Embeds the Schlick approximation `Dielectric::reflectance`
(material.rs 68-73). -/
def Dielectric.reflectanceQ (cosine refIdx : ℚ) : ℚ :=
  let r0 := ((1 - refIdx) / (1 + refIdx)) ^ 2
  r0 + (1 - r0) * (1 - cosine) ^ 5

/-- Characterizes the square root `sin_theta = sqrt(1 - cos_theta^2)` taken in
`Dielectric::scatter` (material.rs 85). -/
def SinThetaSpec (u n : Vec3) (sinT : ℚ) : Prop :=
  0 ≤ sinT ∧ sinT ^ 2 = 1 - (min (u.dot (-n)) 1) ^ 2

/-- Embeds the direction computation of `Dielectric::scatter`
(material.rs 76-101).  `u` is the already-normalized incoming direction
(`ray.direction.normalize()`), `n` the hit-record normal, `frontFace` the
hit-record flag, `sinT` the square root characterized by `SinThetaSpec`,
`sq` the square root used inside `refract` (see `RefractSqrtSpec`) and
`q` the uniform draw `rng.gen()` in `[0, 1)`.  Reflection is chosen when
total internal reflection forces it or the Schlick reflectance exceeds the
draw; otherwise the ray refracts. -/
def Dielectric.scatterDir (ior : ℚ) (frontFace : Bool) (u n : Vec3)
    (sinT sq q : ℚ) : Vec3 :=
  let eta := if frontFace then 1 / ior else ior
  let cosT := min (u.dot (-n)) 1
  if eta * sinT > 1 ∨ Dielectric.reflectanceQ cosT eta > q then
    u.reflect n
  else
    u.refractW n eta sq

/-- Embeds the `Scatter` result struct (material.rs 12-15) with the outgoing
ray reduced to what `ray_color` consumes. -/
structure ScatterM where
  attenuation : Vec3
  ray : Option Ray

/-- The scene interface `Camera::ray_color` consumes (camera.rs 93-116): the
nearest-hit query `hittable.hit(ray, [0.001, ∞])` (a function of the ray only,
since the range is fixed at this call site), the polymorphic material
dispatch `hr.material.scatter(rng, ray, &hr)` with the random source threaded
explicitly as a state `σ`, and `unitY`, abstracting
`ray.direction.normalize().y` used by the sky gradient (a square root in the
source, hence kept abstract; it always lies in `[-1, 1]`). -/
structure SceneM (σ μ : Type) where
  hit : Ray → Option (HitRecord μ)
  scatter : μ → σ → Ray → HitRecord μ → ScatterM × σ
  unitY : Ray → ℚ

/-- Embeds `Camera::ray_color` (camera.rs 93-116).  Depth 0 returns black;
a miss returns the sky gradient `lerp((1,1,1), (0.5,0.7,1), 0.5*(unit.y+1))`;
an absorbed scatter returns black; a scattered ray recurses at `depth - 1`
and multiplies componentwise by the attenuation.  The random-source state is
threaded in the source's evaluation order. -/
def rayColor (S : SceneM σ μ) : σ → ℕ → Ray → Vec3 × σ
  | s, 0, _ => (⟨0, 0, 0⟩, s)
  | s, d + 1, r =>
    match S.hit r with
    | some hr =>
      let sc := S.scatter hr.material s r hr
      match sc.1.ray with
      | some r2 =>
        let rec2 := rayColor S sc.2 d r2
        (rec2.1.mulE sc.1.attenuation, rec2.2)
      | none => (⟨0, 0, 0⟩, sc.2)
    | none =>
      (Vec3.lerp ⟨1, 1, 1⟩ ⟨1/2, 7/10, 1⟩ (1/2 * (S.unitY r + 1)), s)

/-- Number of recursive bounces `rayColor` performs: the same recursion
structure as `rayColor` with each recursive call (made at `depth - 1`)
counted once. -/
def rayBounces (S : SceneM σ μ) : σ → ℕ → Ray → ℕ
  | _, 0, _ => 0
  | s, d + 1, r =>
    match S.hit r with
    | some hr =>
      let sc := S.scatter hr.material s r hr
      match sc.1.ray with
      | some r2 => rayBounces S sc.2 d r2 + 1
      | none => 0
    | none => 0

/-- A trivially empty scene used to instantiate the `rayColor` theorems on a
concrete input: no object is ever hit, the scatter oracle returns full
attenuation and absorbs, and the vertical direction component is 0. -/
def emptyScene : SceneM Unit Unit where
  hit := fun _ => none
  scatter := fun _ s _ _ => (⟨⟨1, 1, 1⟩, none⟩, s)
  unitY := fun _ => 0

/-- The `SAMPLES_PER_PIXEL` constant (camera.rs 25). -/
def SAMPLES_PER_PIXEL : ℕ := 500

/-- Image size in pixels (`Size<usize>`, image.rs 8-12). -/
structure SizeN where
  width : ℕ
  height : ℕ
deriving DecidableEq

/-- Viewport size (`Size<f64>`). -/
structure SizeQ where
  width : ℚ
  height : ℚ
deriving DecidableEq

/-- Outcome of running `Camera::new`: either a constructed camera (its sizes)
or an abort via an unhandled library panic.  The Rust signature
`fn new(usize, Ratio<usize>) -> Self` has no error-return path. -/
inductive CameraResult where
  | abort : CameraResult
  | ok : SizeN → SizeQ → CameraResult
deriving DecidableEq

/-- Configuration errors named by the spec for fail-fast construction. -/
inductive ConfigError where
  | zeroAspect : ConfigError
  | zeroImageWidth : ConfigError
  | zeroImageHeight : ConfigError
deriving DecidableEq

/-- Embeds `Camera::new` (camera.rs 40-91) up to the point where failure is
possible.  The aspect ratio is the exact rational `an / ad` (`Ratio<usize>`
guarantees `ad ≠ 0`); the image height is `(Ratio::from(width) / aspect)
.to_integer()`, i.e. floor division `w * ad / an`, which panics inside `num`
when `an = 0` (division by a zero ratio).  `Size::aspect_ratio` then builds
`Ratio::new(width, height)` for the viewport width, which panics when the
computed height is 0.  Every later field (camera basis, pixel deltas,
defocus basis) is derived from the hard-coded look-from/look-at/up constants
`(13,2,3)/(0,0,0)/(0,1,0)` by arithmetic that cannot fail once both sizes are
nonzero; those real-valued constants are summarized by the viewport height
parameter `vh` (the constant `2 * FOCUS_DISTANCE * tan(FOV/2) > 0`).  No
input validation of any kind is performed and no error value is returned. -/
def Camera.newM (w an ad : ℕ) (vh : ℚ) : CameraResult :=
  if an = 0 then .abort
  else
    let h := w * ad / an
    if h = 0 then .abort
    else .ok ⟨w, h⟩ ⟨((w : ℚ) / (h : ℚ)) * vh, vh⟩

/-- Modelled from the spec: "Construction-time misconfiguration (zero or
negative image dimensions, degenerate aspect ratio, ...) must fail fast with
a descriptive configuration error rather than propagate NaNs silently."
The repository's `Camera::new` has no such validation or error path; this
definition follows the spec's words for comparison with `Camera.newM`. -/
def Camera.newSpec (w an ad : ℕ) (vh : ℚ) : Except ConfigError (SizeN × SizeQ) :=
  if an = 0 then .error .zeroAspect
  else if w = 0 then .error .zeroImageWidth
  else
    let h := w * ad / an
    if h = 0 then .error .zeroImageHeight
    else .ok (⟨w, h⟩, ⟨((w : ℚ) / (h : ℚ)) * vh, vh⟩)

/-- Concrete sphere for the C2 counterexample: center the origin, radius 2,
unit material. -/
def sphereCex : Sphere Unit := ⟨⟨0, 0, 0⟩, 2, ()⟩

/-- Concrete ray for the C2 counterexample: origin `(1,0,0)` (inside the
sphere), direction `(1,0,0)`.  The sphere quadratic is `t^2 + 2t - 3`, with
real roots `-3` and `1`. -/
def rayCex : Ray := ⟨⟨1, 0, 0⟩, ⟨1, 0, 0⟩⟩

/-- Concrete sphere for the C2 witness: unit sphere centered at `(0,0,2)`. -/
def sphereW : Sphere Unit := ⟨⟨0, 0, 2⟩, 1, ()⟩

/-- Concrete ray for the C2 witness: from the origin along `+z`.  The sphere
quadratic is `t^2 - 4t + 3`, with roots `1` and `3`. -/
def rayW : Ray := ⟨⟨0, 0, 0⟩, ⟨0, 0, 1⟩⟩

/-- Minimum of two optional hit parameters (`none` = no hit); used to state
how the aggregate fold combines per-object minima. -/
def mmin : Option ℚ → Option ℚ → Option ℚ
  | none, v => v
  | some a, none => some a
  | some a, some b => some (min a b)

/-! ## Helper lemmas -/

theorem Vec3.add_def (a b : Vec3) : a + b = ⟨a.x + b.x, a.y + b.y, a.z + b.z⟩ := rfl

theorem Vec3.sub_def (a b : Vec3) : a - b = ⟨a.x - b.x, a.y - b.y, a.z - b.z⟩ := rfl

theorem Vec3.neg_def (a : Vec3) : -a = ⟨-a.x, -a.y, -a.z⟩ := rfl

theorem Vec3.smul_def (q : ℚ) (a : Vec3) : q • a = ⟨q * a.x, q * a.y, q * a.z⟩ := rfl

theorem Vec3.eta (a : Vec3) : (⟨a.x, a.y, a.z⟩ : Vec3) = a := rfl

theorem foldl_add_replicate (m : ℕ) (a c : Vec3) :
    (List.replicate m c).foldl (fun u v => u + v) a = a + (m : ℚ) • c := by
  induction m generalizing a with
  | zero =>
    simp [Vec3.smul_def, Vec3.add_def]
  | succ k ih =>
    rw [List.replicate_succ, List.foldl_cons, ih]
    simp only [Vec3.smul_def, Vec3.add_def, Vec3.mk.injEq]
    push_cast
    refine ⟨by ring, by ring, by ring⟩

theorem Vec3.dot_neg_right (a b : Vec3) : a.dot (-b) = -(a.dot b) := by
  simp only [Vec3.dot, Vec3.neg_def]
  ring

/-! ## Claim theorems -/

/-- C3: for every ray and every scene (any hit oracle, any scatter oracle, any
random-source state), `ray_color` called with `depth = 0` returns exactly the
black color `(0,0,0)` and leaves the random source untouched; since the
equation holds for every scene, the scene and materials are never queried. -/
theorem ray_color_depth_zero_black (σ μ : Type) (S : SceneM σ μ) (s : σ) (r : Ray) :
    rayColor S s 0 r = (⟨0, 0, 0⟩, s) := rfl

/-- C4: the `HitRecord` constructed by `HitRecord::new` has `front_face` true
exactly when the ray direction has negative dot product with the outward
normal, and the stored normal (the outward normal, negated when `front_face`
is false) always satisfies `dot(ray.direction, normal) ≤ 0`. -/
theorem hit_record_front_face_spec (M : Type) (m : M) (r : Ray) (t : ℚ)
    (outN : Vec3) :
    ((HitRecord.new m r t outN).frontFace = true ↔ r.direction.dot outN < 0) ∧
    r.direction.dot (HitRecord.new m r t outN).normal ≤ 0 := by
  unfold HitRecord.new
  by_cases h : r.direction.dot outN < 0
  · simp [h]
    linarith
  · simp [h, Vec3.dot_neg_right]
    linarith [not_lt.mp h]

/-- C8: the recursion of `ray_color` terminates.  The depth counter is a
natural number, `rayColor` is defined by structural recursion on it (each
recursive bounce is invoked with `depth - 1`), the number of bounces actually
performed never exceeds the initial depth, and the recursion halts at depth 0
with black. -/
theorem ray_color_terminates (σ μ : Type) (S : SceneM σ μ) (s : σ) (d : ℕ) (r : Ray) :
    rayBounces S s d r ≤ d ∧ (rayColor S s 0 r).1 = ⟨0, 0, 0⟩ := by
  refine ⟨?_, rfl⟩
  induction d generalizing s r with
  | zero => simp [rayBounces]
  | succ k ih =>
    simp only [rayBounces]
    cases h : S.hit r with
    | none => simp
    | some hr =>
      cases h2 : (S.scatter hr.material s r hr).1.ray with
      | none => simp [h2]
      | some r2 =>
        simp only [h2]
        have := ih (S.scatter hr.material s r hr).2 r2
        omega

/-- C9: averaging `N ≥ 1` copies of a color `c` (summing them and dividing by
the count, as `VectorExt::average` does) returns exactly `c`. -/
theorem average_replicate (c : Vec3) (n : ℕ) (hn : 1 ≤ n) :
    Vec3.average (List.replicate n c) = some c := by
  obtain ⟨m, rfl⟩ : ∃ m, n = m + 1 := ⟨n - 1, by omega⟩
  obtain ⟨cx, cy, cz⟩ := c
  rw [List.replicate_succ]
  simp only [Vec3.average, List.length_replicate]
  rw [foldl_add_replicate]
  simp only [Vec3.smul_def, Vec3.add_def, Vec3.divQ, Option.some.injEq, Vec3.mk.injEq]
  have hm : ((m : ℚ) + 1) ≠ 0 := by positivity
  push_cast
  refine ⟨?_, ?_, ?_⟩ <;> field_simp <;> ring

/-- Witness for C9 at the concrete input `N = 3`, `c = (1,2,3)`. -/
theorem average_replicate_witness :
    Vec3.average (List.replicate 3 ⟨1, 2, 3⟩) = some ⟨1, 2, 3⟩ :=
  average_replicate ⟨1, 2, 3⟩ 3 (by decide)

/-- C10: `VectorExt::average` is partial: it panics ("The vector iterator
cannot be empty", modelled as `none`) exactly on the empty iterator; for
every non-empty list the panic branch is unreachable, and in particular the
per-pixel sample iterator of `Camera::render`, which has `SAMPLES_PER_PIXEL
= 500 ≥ 1` elements, always averages successfully. -/
theorem average_partial_spec :
    Vec3.average [] = none ∧
    (∀ l : List Vec3, l ≠ [] → ∃ v, Vec3.average l = some v) ∧
    (∀ f : ℕ → Vec3, ∃ v,
      Vec3.average ((List.range SAMPLES_PER_PIXEL).map f) = some v) := by
  have h2 : ∀ l : List Vec3, l ≠ [] → ∃ v, Vec3.average l = some v := by
    intro l hl
    cases l with
    | nil => exact absurd rfl hl
    | cons v vs => exact ⟨_, rfl⟩
  refine ⟨rfl, h2, fun f => h2 _ ?_⟩
  simp [SAMPLES_PER_PIXEL, List.range_eq_nil]

/-- Witness for C10 at the concrete non-empty input `[(1,2,3)]`. -/
theorem average_partial_spec_witness :
    ∃ v, Vec3.average [⟨1, 2, 3⟩] = some v :=
  average_partial_spec.2.1 [⟨1, 2, 3⟩] (by simp)

theorem objHit_mem (cands : List ℚ) (lo hi t : ℚ) (h : objHit cands lo hi = some t) :
    lo ≤ t ∧ t ≤ hi := by
  have := List.find?_some h
  simpa using this

theorem objHit_shrink (cands : List ℚ) (lo m hi : ℚ) (hs : cands.Sorted (· ≤ ·))
    (hm : m ≤ hi) :
    objHit cands lo m =
      match objHit cands lo hi with
      | some t => if t ≤ m then some t else none
      | none => none := by
  induction cands with
  | nil => rfl
  | cons a as ih =>
    obtain ⟨ha, has⟩ := List.sorted_cons.mp hs
    by_cases hlo : lo ≤ a
    · by_cases hhi : a ≤ hi
      · by_cases ham : a ≤ m
        · rw [objHit, List.find?_cons_of_pos _ (by simp [hlo, ham])]
          rw [objHit, List.find?_cons_of_pos _ (by simp [hlo, hhi])]
          simp [ham]
        · rw [objHit, List.find?_cons_of_neg _ (by simp [ham])]
          rw [objHit, List.find?_cons_of_pos _ (by simp [hlo, hhi])]
          simp only [ham, if_neg, ite_false]
          rw [List.find?_eq_none]
          intro x hx
          have hax : a ≤ x := ha x hx
          simp only [Bool.and_eq_true, decide_eq_true_eq, not_and]
          intro _
          linarith
      · have ham : ¬ a ≤ m := fun h => hhi (le_trans h hm)
        rw [objHit, List.find?_cons_of_neg _ (by simp [ham])]
        rw [objHit, List.find?_cons_of_neg _ (by simp [hhi])]
        exact ih has
    · rw [objHit, List.find?_cons_of_neg _ (by simp [hlo])]
      rw [objHit, List.find?_cons_of_neg _ (by simp [hlo])]
      exact ih has

theorem min?_cons_mmin (t : ℚ) (l : List ℚ) :
    (t :: l).min? = mmin (some t) l.min? := by
  haveI : Std.Associative (min : ℚ → ℚ → ℚ) := ⟨min_assoc⟩
  cases l with
  | nil => rfl
  | cons b bs =>
    rw [List.min?_cons', List.min?_cons', mmin]
    rw [List.foldl_cons, List.foldl_assoc]

theorem optOr_some (x : ℚ) (b : Option ℚ) : optOr (some x) b = some x := rfl

theorem optOr_none (b : Option ℚ) : optOr none b = b := rfl

theorem nearestHit_cons (o : List ℚ) (os : List (List ℚ)) (lo hi : ℚ) :
    nearestHit (o :: os) lo hi = mmin (objHit o lo hi) (nearestHit os lo hi) := by
  unfold nearestHit
  rw [List.filterMap_cons]
  cases h : objHit o lo hi with
  | none => simp only [mmin]
  | some t =>
    rw [min?_cons_mmin]

theorem listHit_fold_some (os : List (List ℚ)) (lo hi : ℚ)
    (hs : ∀ o ∈ os, o.Sorted (· ≤ ·)) (m : ℚ) (hlo : lo ≤ m) (hm : m ≤ hi) :
    os.foldl (fun current next => optOr (objHit next lo (current.getD hi)) current)
      (some m) = mmin (some m) (nearestHit os lo hi) := by
  induction os generalizing m with
  | nil => rfl
  | cons o os ih =>
    have hso : o.Sorted (· ≤ ·) := hs o (List.mem_cons_self o os)
    have hsos : ∀ o' ∈ os, o'.Sorted (· ≤ ·) := fun o' h => hs o' (List.mem_cons_of_mem o h)
    have hshrink := objHit_shrink o lo m hi hso hm
    simp only [List.foldl_cons, Option.getD_some]
    cases hhi : objHit o lo hi with
    | none =>
      have hnone : objHit o lo m = none := by rw [hshrink, hhi]
      rw [hnone, optOr_none, ih hsos m hlo hm, nearestHit_cons, hhi]
      simp only [mmin]
    | some t =>
      obtain ⟨hlot, hthi⟩ := objHit_mem o lo hi t hhi
      by_cases htm : t ≤ m
      · have hsome : objHit o lo m = some t := by rw [hshrink, hhi]; simp [htm]
        rw [hsome, optOr_some, ih hsos t hlot hthi, nearestHit_cons, hhi]
        cases nearestHit os lo hi with
        | none =>
          simp only [mmin, Option.some.injEq]
          exact (min_eq_right htm).symm
        | some x =>
          simp only [mmin, Option.some.injEq]
          exact (min_eq_right (le_trans (min_le_left t x) htm)).symm
      · have hnone : objHit o lo m = none := by rw [hshrink, hhi]; simp [htm]
        rw [hnone, optOr_none, ih hsos m hlo hm, nearestHit_cons, hhi]
        have hmt : m ≤ t := le_of_not_le htm
        cases nearestHit os lo hi with
        | none =>
          simp only [mmin, Option.some.injEq]
          exact (min_eq_left hmt).symm
        | some x =>
          simp only [mmin, Option.some.injEq]
          rw [← min_assoc, min_eq_left hmt]

theorem listHit_fold_none (os : List (List ℚ)) (lo hi : ℚ)
    (hs : ∀ o ∈ os, o.Sorted (· ≤ ·)) :
    os.foldl (fun current next => optOr (objHit next lo (current.getD hi)) current)
      none = nearestHit os lo hi := by
  induction os with
  | nil => rfl
  | cons o os ih =>
    have hsos : ∀ o' ∈ os, o'.Sorted (· ≤ ·) := fun o' h => hs o' (List.mem_cons_of_mem o h)
    simp only [List.foldl_cons, Option.getD_none]
    cases hhi : objHit o lo hi with
    | none =>
      rw [optOr_none, ih hsos, nearestHit_cons, hhi]
      simp only [mmin]
    | some t =>
      obtain ⟨hlot, hthi⟩ := objHit_mem o lo hi t hhi
      rw [optOr_some, listHit_fold_some os lo hi hsos t hlot hthi, nearestHit_cons, hhi]

/-- C1: `HittableList::hit` resolves the nearest hit.  Each member object is
abstracted by its ascending list of candidate intersection parameters along
the ray, with the first-candidate-in-range `hit` policy that `Sphere::hit`
implements (`objHit`); the fold of `HittableList::hit` (`listHit`), which
shrinks the upper bound of the queried range to the closest hit found so far,
returns exactly the minimum over all member objects' hits within the original
`t_range` — never a farther hit.  In particular, for two overlapping spheres
intersected at distinct parameters it returns the strictly smaller `t` (see
the witness). -/
theorem hittable_list_nearest (objs : List (List ℚ)) (lo hi : ℚ)
    (hs : ∀ o ∈ objs, o.Sorted (· ≤ ·)) :
    listHit objs lo hi = nearestHit objs lo hi :=
  listHit_fold_none objs lo hi hs

/-- Witness for C1: two overlapping spheres along one ray (root lists `[1, 3]`
and `[2, 4]`, as produced by unit spheres centered at `(0,0,2)` and `(0,0,3)`
for the ray from the origin along `+z`), over the range `[0, 10^9]`: the
aggregate returns the minimum of the member hits, here the strictly smaller
`t = 1`, never the farther hits `2`, `3` or `4`. -/
theorem hittable_list_nearest_witness :
    listHit [[1, 3], [2, 4]] 0 1000000000 =
      nearestHit [[1, 3], [2, 4]] 0 1000000000 ∧
    listHit [[1, 3], [2, 4]] 0 1000000000 = some 1 :=
  ⟨hittable_list_nearest [[1, 3], [2, 4]] 0 1000000000 (by decide), by decide⟩

theorem Vec3.magnitude2_pos (v : Vec3) (hv : v ≠ ⟨0, 0, 0⟩) : 0 < v.magnitude2 := by
  obtain ⟨a, b, c⟩ := v
  simp only [Vec3.magnitude2, Vec3.dot]
  have habc : a ≠ 0 ∨ b ≠ 0 ∨ c ≠ 0 := by
    by_contra h
    push_neg at h
    exact hv (by simp [h.1, h.2.1, h.2.2])
  rcases habc with h | h | h <;> rcases h.lt_or_lt with h | h <;>
    nlinarith [sq_nonneg a, sq_nonneg b, sq_nonneg c]

theorem quad_no_root (p : Parabola) (_ha : p.a ≠ 0) (hd : p.discrim < 0) (t : ℚ) :
    ¬ p.IsRoot t := by
  intro h
  unfold Parabola.IsRoot at h
  unfold Parabola.discrim at hd
  have key : (2 * p.a * t + p.b) ^ 2 =
      (p.b ^ 2 - 4 * p.a * p.c) + 4 * p.a * (p.a * t ^ 2 + p.b * t + p.c) := by
    ring
  rw [h, mul_zero, add_zero] at key
  linarith [sq_nonneg (2 * p.a * t + p.b)]

theorem quad_double_root (p : Parabola) (ha : p.a ≠ 0) (hd : p.discrim = 0)
    (r t : ℚ) (hr : p.IsRoot r) (ht : p.IsRoot t) : t = r := by
  unfold Parabola.IsRoot at hr ht
  unfold Parabola.discrim at hd
  have h1 : (2 * p.a * t + p.b) ^ 2 = 0 := by
    have key : (2 * p.a * t + p.b) ^ 2 =
        (p.b ^ 2 - 4 * p.a * p.c) + 4 * p.a * (p.a * t ^ 2 + p.b * t + p.c) := by
      ring
    rw [ht, mul_zero, add_zero, hd] at key
    exact key
  have h2 : (2 * p.a * r + p.b) ^ 2 = 0 := by
    have key : (2 * p.a * r + p.b) ^ 2 =
        (p.b ^ 2 - 4 * p.a * p.c) + 4 * p.a * (p.a * r ^ 2 + p.b * r + p.c) := by
      ring
    rw [hr, mul_zero, add_zero, hd] at key
    exact key
  have h1' : 2 * p.a * t + p.b = 0 := sq_eq_zero_iff.mp h1
  have h2' : 2 * p.a * r + p.b = 0 := sq_eq_zero_iff.mp h2
  have hcancel : (2 * p.a) * t = (2 * p.a) * r := by linarith
  exact mul_left_cancel₀ (mul_ne_zero two_ne_zero ha) hcancel

theorem quad_two_roots (p : Parabola) (ha : p.a ≠ 0) (r1 r2 : ℚ) (hne : r1 ≠ r2)
    (h1 : p.IsRoot r1) (h2 : p.IsRoot r2) (t : ℚ) (ht : p.IsRoot t) :
    t = r1 ∨ t = r2 := by
  unfold Parabola.IsRoot at h1 h2 ht
  have hf : (r1 - r2) * (p.a * (r1 + r2) + p.b) = 0 := by linear_combination h1 - h2
  have hb : p.b = -(p.a * (r1 + r2)) := by
    rcases mul_eq_zero.mp hf with h | h
    · exact absurd (by linarith : r1 = r2) hne
    · linarith
  have hc : p.c = p.a * (r1 * r2) := by
    rw [hb] at h1
    linear_combination h1
  have hfact : p.a * ((t - r1) * (t - r2)) = 0 := by
    rw [hb, hc] at ht
    linear_combination ht
  rcases mul_eq_zero.mp hfact with h | h
  · exact absurd h ha
  · rcases mul_eq_zero.mp h with h | h
    · left; linarith
    · right; linarith

theorem objHit_singleton (r0 lo hi : ℚ) :
    objHit [r0] lo hi = if lo ≤ r0 ∧ r0 ≤ hi then some r0 else none := by
  by_cases h : lo ≤ r0 ∧ r0 ≤ hi
  · rw [if_pos h]
    exact List.find?_cons_of_pos _ (by simp [h.1, h.2])
  · rw [if_neg h, objHit, List.find?_cons_of_neg _ (by simpa using h), List.find?_nil]

theorem objHit_pair (r1 r2 lo hi : ℚ) :
    objHit [r1, r2] lo hi =
      if lo ≤ r1 ∧ r1 ≤ hi then some r1
      else if lo ≤ r2 ∧ r2 ≤ hi then some r2
      else none := by
  by_cases h1 : lo ≤ r1 ∧ r1 ≤ hi
  · rw [if_pos h1]
    exact List.find?_cons_of_pos _ (by simp [h1.1, h1.2])
  · rw [if_neg h1, objHit, List.find?_cons_of_neg _ (by simpa using h1)]
    exact objHit_singleton r2 lo hi

/-- C2 counterexample.  For the sphere centered at the origin with radius 2
and the ray from `(1,0,0)` with direction `(1,0,0)`, the intersection
quadratic is `t^2 + 2t - 3` with real roots `-3` and `1` (so
`ParabolaRootsSpec` holds for `.two (-3) 1`, the value-ascending order the
source's `minmax_by` produces).  Over the inclusive interval `[-10, 10]`,
`Sphere::hit` returns the hit at `t = -3`, whereas the claim's policy —
consider the roots in ascending absolute order and return the first lying in
`t_range` — would return `t = 1`: the claim misstates the code's root order,
which is ascending by value, not by absolute value. -/
theorem sphere_hit_abs_order_counterexample :
    ParabolaRootsSpec (sphereCex.parabola rayCex) (.two (-3) 1) ∧
    (sphereCex.hitR rayCex (-10) 10 (.two (-3) 1)).map (fun hr => hr.t) =
      some (-3) ∧
    (sphereCex.hitAbsR rayCex (-10) 10 (.two (-3) 1)).map (fun hr => hr.t) =
      some 1 := by
  refine ⟨?_, ?_, ?_⟩
  · norm_num [ParabolaRootsSpec, Parabola.IsRoot, Parabola.discrim, Sphere.parabola,
      sphereCex, rayCex, Vec3.dot, Vec3.magnitude2, Vec3.sub_def]
  · norm_num [Sphere.hitR, ParabolaRoots.toList, Option.some_bind, objHit_pair,
      HitRecord.new]
  · norm_num [Sphere.hitAbsR, ParabolaRoots.toListAbs, Option.some_bind, objHit_pair,
      HitRecord.new]

/-- C2 (amended): for every ray with nonzero direction and every sphere,
given roots satisfying the `Parabola::roots` characterization, `Sphere::hit`
considers the real roots in ascending order *by value* and returns a
`HitRecord` for the first root lying within the inclusive interval
`t_range`; the selected `t` is therefore the smallest real root of the
intersection quadratic within the interval, and `None` is returned exactly
when no real root lies in the interval. -/
theorem sphere_hit_smallest_root (M : Type) (s : Sphere M) (r : Ray) (lo hi : ℚ)
    (roots : ParabolaRoots) (hd : r.direction ≠ ⟨0, 0, 0⟩)
    (hspec : ParabolaRootsSpec (s.parabola r) roots) :
    (∀ hr, s.hitR r lo hi roots = some hr →
      (s.parabola r).IsRoot hr.t ∧ lo ≤ hr.t ∧ hr.t ≤ hi ∧
      (∀ u, (s.parabola r).IsRoot u → lo ≤ u → u ≤ hi → hr.t ≤ u) ∧
      hr = HitRecord.new s.material r hr.t
        ((r.at hr.t - s.center).divQ s.radius)) ∧
    (s.hitR r lo hi roots = none →
      ∀ u, (s.parabola r).IsRoot u → ¬(lo ≤ u ∧ u ≤ hi)) := by
  have ha : (s.parabola r).a ≠ 0 := by
    have hpos := Vec3.magnitude2_pos r.direction hd
    unfold Sphere.parabola
    exact ne_of_gt hpos
  cases roots with
  | noRoots =>
    rcases hspec with ⟨h0, _, _⟩ | ⟨_, hdisc⟩
    · exact absurd h0 ha
    · constructor
      · intro hr h
        rw [show s.hitR r lo hi .noRoots = none from rfl] at h
        cases h
      · intro _ u hu _
        exact absurd hu (quad_no_root _ ha hdisc u)
  | one r0 =>
    rcases hspec with ⟨h0, _, _⟩ | ⟨h0, _, _, _⟩ | ⟨_, hdisc, hroot⟩
    · exact absurd h0 ha
    · exact absurd h0 ha
    · have hh : s.hitR r lo hi (.one r0) =
          if lo ≤ r0 ∧ r0 ≤ hi
          then some (HitRecord.new s.material r r0
            ((r.at r0 - s.center).divQ s.radius))
          else none := by
        unfold Sphere.hitR
        simp only [ParabolaRoots.toList, Option.some_bind]
        rw [objHit_singleton]
        by_cases h : lo ≤ r0 ∧ r0 ≤ hi
        · rw [if_pos h, if_pos h]
        · rw [if_neg h, if_neg h]
      constructor
      · intro hr hsome
        rw [hh] at hsome
        by_cases h : lo ≤ r0 ∧ r0 ≤ hi
        · rw [if_pos h] at hsome
          obtain rfl := Option.some.inj hsome
          refine ⟨hroot, h.1, h.2, ?_, rfl⟩
          intro u hu _ _
          rw [quad_double_root _ ha hdisc r0 u hroot hu]
          exact le_refl _
        · rw [if_neg h] at hsome
          cases hsome
      · intro hnone u hu hin
        have hu0 : u = r0 := quad_double_root _ ha hdisc r0 u hroot hu
        rw [hh, if_pos (hu0 ▸ hin)] at hnone
        cases hnone
  | two r1 r2 =>
    obtain ⟨_, _, hlt, hr1, hr2⟩ := hspec
    have hdich := quad_two_roots _ ha r1 r2 (ne_of_lt hlt) hr1 hr2
    have hh : s.hitR r lo hi (.two r1 r2) =
        if lo ≤ r1 ∧ r1 ≤ hi
        then some (HitRecord.new s.material r r1
          ((r.at r1 - s.center).divQ s.radius))
        else if lo ≤ r2 ∧ r2 ≤ hi
        then some (HitRecord.new s.material r r2
          ((r.at r2 - s.center).divQ s.radius))
        else none := by
      unfold Sphere.hitR
      simp only [ParabolaRoots.toList, Option.some_bind]
      rw [objHit_pair]
      by_cases h1 : lo ≤ r1 ∧ r1 ≤ hi
      · rw [if_pos h1, if_pos h1]
      · rw [if_neg h1, if_neg h1]
        by_cases h2 : lo ≤ r2 ∧ r2 ≤ hi
        · rw [if_pos h2, if_pos h2]
        · rw [if_neg h2, if_neg h2]
    constructor
    · intro hr hsome
      rw [hh] at hsome
      by_cases h1 : lo ≤ r1 ∧ r1 ≤ hi
      · rw [if_pos h1] at hsome
        obtain rfl := Option.some.inj hsome
        refine ⟨hr1, h1.1, h1.2, ?_, rfl⟩
        intro u hu _ _
        rcases hdich u hu with rfl | rfl
        · exact le_refl _
        · exact le_of_lt hlt
      · rw [if_neg h1] at hsome
        by_cases h2 : lo ≤ r2 ∧ r2 ≤ hi
        · rw [if_pos h2] at hsome
          obtain rfl := Option.some.inj hsome
          refine ⟨hr2, h2.1, h2.2, ?_, rfl⟩
          intro u hu hul huh
          rcases hdich u hu with rfl | rfl
          · exact absurd ⟨hul, huh⟩ h1
          · exact le_refl _
        · rw [if_neg h2] at hsome
          cases hsome
    · intro hnone u hu hin
      rw [hh] at hnone
      rcases hdich u hu with rfl | rfl
      · rw [if_pos hin] at hnone
        cases hnone
      · by_cases h1 : lo ≤ r1 ∧ r1 ≤ hi
        · rw [if_pos h1] at hnone
          cases hnone
        · rw [if_neg h1, if_pos hin] at hnone
          cases hnone

/-- Witness for C2 (amended) at the concrete input: unit sphere at `(0,0,2)`,
ray from the origin along `+z` (quadratic `t^2 - 4t + 3`, roots `1` and `3`),
range `[0, 1000]`. -/
theorem sphere_hit_smallest_root_witness :
    (∀ hr, sphereW.hitR rayW 0 1000 (.two 1 3) = some hr →
      (sphereW.parabola rayW).IsRoot hr.t ∧ 0 ≤ hr.t ∧ hr.t ≤ 1000 ∧
      (∀ u, (sphereW.parabola rayW).IsRoot u → 0 ≤ u → u ≤ 1000 → hr.t ≤ u) ∧
      hr = HitRecord.new sphereW.material rayW hr.t
        ((rayW.at hr.t - sphereW.center).divQ sphereW.radius)) ∧
    (sphereW.hitR rayW 0 1000 (.two 1 3) = none →
      ∀ u, (sphereW.parabola rayW).IsRoot u → ¬(0 ≤ u ∧ u ≤ 1000)) :=
  sphere_hit_smallest_root Unit sphereW rayW 0 1000 (.two 1 3) (by decide)
    (by norm_num [ParabolaRootsSpec, Parabola.IsRoot, Parabola.discrim, Sphere.parabola,
      sphereW, rayW, Vec3.dot, Vec3.magnitude2, Vec3.sub_def])

theorem Vec3.dot_sq_le (u n : Vec3) :
    (u.dot n) ^ 2 ≤ u.magnitude2 * n.magnitude2 := by
  obtain ⟨a, b, c⟩ := u
  obtain ⟨d, e, f⟩ := n
  simp only [Vec3.dot, Vec3.magnitude2]
  nlinarith [sq_nonneg (a * e - b * d), sq_nonneg (a * f - c * d), sq_nonneg (b * f - c * e)]

theorem Vec3.mag2_add_smul (u n : Vec3) (c : ℚ) :
    (u + c • n).magnitude2 =
      u.magnitude2 + 2 * c * (u.dot n) + c ^ 2 * n.magnitude2 := by
  obtain ⟨ux, uy, uz⟩ := u
  obtain ⟨nx, ny, nz⟩ := n
  simp only [Vec3.magnitude2, Vec3.dot, Vec3.add_def, Vec3.smul_def]
  ring

theorem Vec3.one_smul_q (v : Vec3) : (1 : ℚ) • v = v := by
  obtain ⟨a, b, c⟩ := v
  simp [Vec3.smul_def]

/-- C5 counterexample.  At incidence cosine `3/5` (unit incoming direction
`(4/5, 0, -3/5)`, unit hit-record normal `(0, 0, 1)`, sine `4/5`), with
`index_of_refraction = 1` and random draw `q = 0` (a reachable state of the
random source, since `rng.gen()` ranges over `[0, 1)`), the Schlick
reflectance `(1 - 3/5)^5 = 32/3125` exceeds the draw, so `Dielectric::scatter`
takes the reflection branch: the outgoing direction is `(4/5, 0, 3/5)`, not
the incoming `(4/5, 0, -3/5)` — the z component flips sign, far beyond any
floating-point tolerance.  Hence with `ior = 1` the scattering is not
bend-free for every state of the random source. -/
theorem dielectric_unit_ior_counterexample :
    SinThetaSpec ⟨4/5, 0, -(3/5)⟩ ⟨0, 0, 1⟩ (4/5) ∧
    ((0 : ℚ) ≤ 0 ∧ (0 : ℚ) < 1) ∧
    Dielectric.scatterDir 1 true ⟨4/5, 0, -(3/5)⟩ ⟨0, 0, 1⟩ (4/5) (3/5) 0 =
      ⟨4/5, 0, 3/5⟩ ∧
    (⟨4/5, 0, 3/5⟩ : Vec3) ≠ ⟨4/5, 0, -(3/5)⟩ := by
  refine ⟨?_, ⟨le_refl 0, by norm_num⟩, ?_, ?_⟩
  · constructor
    · norm_num
    · norm_num [Vec3.dot, Vec3.neg_def, min_def]
  · norm_num [Dielectric.scatterDir, Dielectric.reflectanceQ, Vec3.reflect,
      Vec3.dot, Vec3.neg_def, Vec3.smul_def, Vec3.sub_def, min_def, Vec3.mk.injEq]
  · intro h
    have := congrArg Vec3.z h
    norm_num at this

/-- C5 (amended): `Dielectric::scatter` with `index_of_refraction = 1`
produces zero net bending whenever the stochastic choice selects refraction,
i.e. whenever the uniform draw `q` is at least the Schlick reflectance
`(1 - cos θ)^5`: in that case the outgoing direction equals the normalized
incoming direction exactly (total internal reflection is impossible at ratio
1).  On draws below the reflectance the ray is mirror-reflected instead and
the direction changes, so zero bending does not hold for every random-source
state (see the counterexample). -/
theorem dielectric_unit_ior_refract_id (frontFace : Bool) (u n : Vec3)
    (sinT sq q : ℚ) (hu : u.magnitude2 = 1) (hn : n.magnitude2 = 1)
    (hdot : u.dot n ≤ 0) (hsin : SinThetaSpec u n sinT)
    (hsq : RefractSqrtSpec u n 1 sq)
    (hq : Dielectric.reflectanceQ (min (u.dot (-n)) 1) 1 ≤ q) :
    Dielectric.scatterDir 1 frontFace u n sinT sq q = u := by
  have hd1 : u.dot (-n) ≤ 1 := by
    have hcs := Vec3.dot_sq_le u n
    rw [hu, hn] at hcs
    rw [Vec3.dot_neg_right]
    nlinarith
  have hcos : min (u.dot (-n)) 1 = u.dot (-n) := min_eq_left hd1
  have hcosnn : 0 ≤ u.dot (-n) := by
    rw [Vec3.dot_neg_right]
    linarith
  obtain ⟨hsin0, hsin2⟩ := hsin
  rw [hcos] at hsin2
  have hsin1 : sinT ≤ 1 := by nlinarith [sq_nonneg (u.dot (-n))]
  obtain ⟨hsq0, hsq2⟩ := hsq
  rw [hcos] at hsq2
  have hmag : ((1 : ℚ) • (u + (u.dot (-n)) • n)).magnitude2 = 1 - (u.dot (-n)) ^ 2 := by
    rw [Vec3.one_smul_q, Vec3.mag2_add_smul, hu, hn, Vec3.dot_neg_right]
    ring
  rw [hmag] at hsq2
  rw [show (1 : ℚ) - (1 - (u.dot (-n)) ^ 2) = (u.dot (-n)) ^ 2 by ring,
    abs_of_nonneg (sq_nonneg _)] at hsq2
  have hsqcos : sq = u.dot (-n) := by
    have hfac : (sq - u.dot (-n)) * (sq + u.dot (-n)) = 0 := by linear_combination hsq2
    rcases mul_eq_zero.mp hfac with h | h
    · linarith
    · linarith
  have heta : (if frontFace then (1 : ℚ) / 1 else 1) = 1 := by
    cases frontFace <;> norm_num
  simp only [Dielectric.scatterDir, heta]
  have hcond : ¬ ((1 : ℚ) * sinT > 1 ∨
      Dielectric.reflectanceQ (min (u.dot (-n)) 1) 1 > q) := by
    push_neg
    constructor
    · rw [one_mul]; exact hsin1
    · exact hq
  rw [if_neg hcond]
  simp only [Vec3.refractW, hcos, hsqcos]
  obtain ⟨ux, uy, uz⟩ := u
  obtain ⟨nx, ny, nz⟩ := n
  simp only [Vec3.dot, Vec3.neg_def, Vec3.smul_def, Vec3.add_def, Vec3.mk.injEq]
  refine ⟨by ring, by ring, by ring⟩

/-- Witness for C5 (amended): same geometry as the counterexample
(cos θ = 3/5, sin θ = 4/5) but draw `q = 1/2 ≥ (2/5)^5`: the refraction
branch fires and the outgoing direction equals the incoming one. -/
theorem dielectric_unit_ior_refract_id_witness :
    Dielectric.scatterDir 1 true ⟨4/5, 0, -(3/5)⟩ ⟨0, 0, 1⟩ (4/5) (3/5) (1/2) =
      ⟨4/5, 0, -(3/5)⟩ :=
  dielectric_unit_ior_refract_id true ⟨4/5, 0, -(3/5)⟩ ⟨0, 0, 1⟩ (4/5) (3/5) (1/2)
    (by norm_num [Vec3.magnitude2, Vec3.dot])
    (by norm_num [Vec3.magnitude2, Vec3.dot])
    (by norm_num [Vec3.dot])
    (by constructor <;> norm_num [Vec3.dot, Vec3.neg_def, min_def])
    (by
      constructor
      · norm_num
      · norm_num [Vec3.dot, Vec3.neg_def, min_def, Vec3.smul_def, Vec3.add_def,
          Vec3.magnitude2, abs_of_nonneg])
    (by norm_num [Dielectric.reflectanceQ, Vec3.dot, Vec3.neg_def, min_def])

/-- C6 counterexample.  At image width 1 with the repository's default aspect
ratio `16/9` (a degenerate construction input: the computed image height
`(1 * 9) / 16` is zero), the spec demands a descriptive configuration error,
but `Camera::new` — whose Rust type `fn new(usize, Ratio<usize>) -> Self` has
no error-return path and performs no validation — instead aborts through an
unhandled library panic when `Size::aspect_ratio` builds `Ratio::new(1, 0)`
inside `num`.  The spec-modelled validator `Camera.newSpec` returns the
configuration error the claim requires; the code does not. -/
theorem camera_new_no_config_error_counterexample :
    Camera.newM 1 16 9 1 = CameraResult.abort ∧
    Camera.newSpec 1 16 9 1 = Except.error ConfigError.zeroImageHeight := by
  constructor <;> rfl

/-- C6 (amended): `Camera::new` performs no input validation and has no
configuration-error result.  Construction aborts — via an unhandled library
panic, not a descriptive error — exactly on the inputs the spec-modelled
validator rejects: a zero aspect ratio, or a computed image height of zero
(zero width, or aspect ratio exceeding the width).  On every other input it
succeeds with the computed sizes.  Negative image dimensions are
unrepresentable (`usize`), and the look-from/look-at/up triple is a
hard-coded non-degenerate constant, not a construction input. -/
theorem camera_new_abort_iff_invalid (w an ad : ℕ) (vh : ℚ) :
    (Camera.newM w an ad vh = CameraResult.abort ↔
      (Camera.newSpec w an ad vh).isOk = false) ∧
    (Camera.newM w an ad vh ≠ CameraResult.abort →
      Camera.newM w an ad vh =
        CameraResult.ok ⟨w, w * ad / an⟩
          ⟨((w : ℚ) / ((w * ad / an : ℕ) : ℚ)) * vh, vh⟩) := by
  unfold Camera.newM Camera.newSpec
  by_cases h1 : an = 0
  · simp [h1, Except.isOk, Except.toBool]
  · by_cases h2 : w = 0
    · have h3 : w * ad / an = 0 := by simp [h2]
      simp [h1, h2, h3, Except.isOk, Except.toBool]
    · by_cases h3 : w * ad / an = 0
      · simp [h1, h2, h3, Except.isOk, Except.toBool]
      · simp [h1, h2, h3, Except.isOk, Except.toBool]

/-- Witness for C6 (amended) at the repository's actual configuration
(width 400, aspect ratio 16/9): construction does not abort and yields image
height `400 * 9 / 16 = 225`. -/
theorem camera_new_abort_iff_invalid_witness :
    Camera.newM 400 16 9 2 =
      CameraResult.ok ⟨400, 400 * 9 / 16⟩
        ⟨((400 : ℚ) / ((400 * 9 / 16 : ℕ) : ℚ)) * 2, 2⟩ :=
  (camera_new_abort_iff_invalid 400 16 9 2).2 (by decide)

/-- C7: for every scene whose material attenuation colors have every channel
in `[0, 1]` and whose normalized-direction vertical component (the quantity
`ray.direction.normalize().y` feeding the sky gradient) lies in `[-1, 1]`,
`ray_color` returns a color with every channel in `[0, 1]` at every depth:
the miss-case sky gradient, the absorbed-case black, the depth-exhausted
black and the componentwise attenuation product all preserve the range, so
no clamping is needed before per-pixel averaging. -/
theorem ray_color_channels_in_unit (σ μ : Type) (S : SceneM σ μ)
    (hatt : ∀ m s r hr, ((S.scatter m s r hr).1.attenuation).inUnit)
    (hsky : ∀ r, -1 ≤ S.unitY r ∧ S.unitY r ≤ 1)
    (s : σ) (d : ℕ) (r : Ray) : ((rayColor S s d r).1).inUnit := by
  induction d generalizing s r with
  | zero =>
    refine ⟨le_refl 0, zero_le_one, le_refl 0, zero_le_one, le_refl 0, zero_le_one⟩
  | succ k ih =>
    simp only [rayColor]
    cases hh : S.hit r with
    | some hr =>
      cases hray : (S.scatter hr.material s r hr).1.ray with
      | some r2 =>
        simp only [hray]
        have h1 := ih (S.scatter hr.material s r hr).2 r2
        have h2 := hatt hr.material s r hr
        unfold Vec3.inUnit at h1 h2 ⊢
        simp only [Vec3.mulE]
        obtain ⟨a1, a2, a3, a4, a5, a6⟩ := h1
        obtain ⟨b1, b2, b3, b4, b5, b6⟩ := h2
        refine ⟨?_, ?_, ?_, ?_, ?_, ?_⟩ <;> nlinarith
      | none =>
        simp only [hray]
        refine ⟨le_refl 0, zero_le_one, le_refl 0, zero_le_one, le_refl 0, zero_le_one⟩
    | none =>
      obtain ⟨hy1, hy2⟩ := hsky r
      unfold Vec3.lerp Vec3.inUnit
      simp only [Vec3.add_def, Vec3.sub_def, Vec3.smul_def]
      refine ⟨?_, ?_, ?_, ?_, ?_, ?_⟩ <;> nlinarith

/-- Witness for C7 at a concrete scene (the empty scene, whose scatter oracle
returns attenuation `(1,1,1)` and `unitY = 0`), depth 1 and a concrete ray:
the returned sky color has channels in `[0, 1]`. -/
theorem ray_color_channels_in_unit_witness :
    ((rayColor emptyScene () 1 ⟨⟨0, 0, 0⟩, ⟨0, 0, 1⟩⟩).1).inUnit :=
  ray_color_channels_in_unit Unit Unit emptyScene
    (fun _ _ _ _ => by norm_num [emptyScene, Vec3.inUnit])
    (fun _ => by norm_num [emptyScene]) () 1 ⟨⟨0, 0, 0⟩, ⟨0, 0, 1⟩⟩
